import Mathlib

/-
Shallow embedding of the moss package-manager layout database
(src/moss/src/db/layout/mod.rs) together with the parts of its
environment that the module's behaviour depends on: the stone payload
Entry union, Rust's decimal u128 formatting/parsing, Rust's hex
formatting, and the SQLite semantics of the single statements the
module issues (implicit per-statement transactions, foreign-key
checking, read-only connections, DISTINCT).

Machine integers are embedded as Nat: the u128 hash carries the
explicit invariant hash < 2 ^ 128 where it matters.  Database state is
passed explicitly: a Database value holds the rows of the layout table,
the ids present in the referenced packages table (the FOREIGN KEY
target of layout.package_id, with foreign_keys enabled at connect
time), and the read-only flag of the connection.  Fallible operations
return an Except value paired with the post-state; an error leaves the
state unchanged, which models SQLite rolling back the implicit
transaction of the failed statement.
-/

deriving instance DecidableEq for Except

namespace Moss

/-- Bound of the Rust u128 type; Regular hashes are 128-bit unsigned. -/
def U128_MOD : Nat := 2 ^ 128

/-- stone payload layout Entry (payload::layout::Entry): the tagged union
of filesystem entry kinds stored by the layout database.  The Regular
hash is a Rust u128, embedded as a Nat with the invariant Entry.valid. -/
inductive Entry where
  | Regular (hash : Nat) (name : String)
  | Symlink (source : String) (target : String)
  | Directory (path : String)
  | CharacterDevice (path : String)
  | BlockDevice (path : String)
  | Fifo (path : String)
  | Socket (path : String)
  deriving DecidableEq

/-- Valid payloads: the Regular hash fits in a u128; every other variant
carries arbitrary strings. -/
def Entry.valid : Entry → Prop
  | .Regular hash _ => hash < U128_MOD
  | _ => True

/-- Little-endian base-b digits of n, with an explicit fuel bound so that
the recursion is structural (fuel := n always suffices since n shrinks
strictly under division by b ≥ 2). -/
def digitsLEAux (b : Nat) : Nat → Nat → List Nat
  | 0, _ => []
  | fuel + 1, n => if n = 0 then [] else n % b :: digitsLEAux b fuel (n / b)

/-- Little-endian base-b digits of n (empty for n = 0). -/
def digitsLE (b n : Nat) : List Nat := digitsLEAux b n n

/-- Value denoted by a little-endian list of base-10 digits. -/
def ofDigitsLE : List Nat → Nat
  | [] => 0
  | d :: ds => d + 10 * ofDigitsLE ds

/-- ASCII character of a decimal digit (0 ≤ d ≤ 9 maps to characters 0-9). -/
def digitChar (d : Nat) : Char := Char.ofNat (48 + d)

/-- Inverse of digitChar: ASCII decimal digit characters back to 0..9,
anything else rejected. -/
def charToDigit (c : Char) : Option Nat :=
  if 48 ≤ c.toNat ∧ c.toNat ≤ 57 then some (c.toNat - 48) else none

/-- Decimal character representation of a Nat, most significant digit
first; Rust u128::to_string renders 0 as the single character 0. -/
def natDecChars (n : Nat) : List Char :=
  if n = 0 then ['0'] else ((digitsLE 10 n).map digitChar).reverse

/-- Embedding of Rust u128::to_string (called by encode_entry on the
Regular hash): the decimal string of the hash. -/
def u128ToString (n : Nat) : String := String.mk (natDecChars n)

/-- Parse a big-endian run of decimal digit characters; any non-digit
character rejects the whole list. -/
def parseDigitsBE : List Char → Option (List Nat)
  | [] => some []
  | c :: cs =>
    match charToDigit c, parseDigitsBE cs with
    | some d, some ds => some (d :: ds)
    | _, _ => none

/-- Parse a character list as a decimal natural number: empty input and
non-digit characters are rejected, leading zeros are accepted. -/
def parseNatChars (cs : List Char) : Option Nat :=
  if cs.isEmpty then none
  else (parseDigitsBE cs).map fun ds => ofDigitsLE ds.reverse

/-- Embedding of Rust str::parse::<u128> as used by decode_entry and
file_hashes: decimal digits only, rejecting the empty string and values
that overflow the 128-bit range. -/
def parseU128 (s : String) : Option Nat :=
  match parseNatChars s.data with
  | some n => if n < U128_MOD then some n else none
  | none => none

/-- ASCII character of a hex digit, lowercase as in Rust formatting. -/
def hexDigitChar (d : Nat) : Char :=
  if d < 10 then Char.ofNat (48 + d) else Char.ofNat (87 + d)

/-- Lowercase hex character representation of a Nat, most significant
digit first; 0 renders as the single character 0. -/
def hexChars (n : Nat) : List Char :=
  if n = 0 then ['0'] else ((digitsLE 16 n).map hexDigitChar).reverse

/-- Embedding of the Rust hex format with a zero-fill minimum width of 2
(the exact format string file_hashes applies to each parsed hash): the
value's lowercase hex digits, left-padded with the zero character to at
least two characters, never truncated. -/
def formatHex02 (n : Nat) : String :=
  String.mk (List.replicate (2 - (hexChars n).length) '0' ++ hexChars n)

/-- One row of the layout table, with the schema's column types: the
TEXT NOT NULL and INTEGER NOT NULL columns are non-optional, the two
generic value columns are nullable (encoding::Layout in the source). -/
structure Row where
  package_id : String
  uid : Nat
  gid : Nat
  mode : Nat
  tag : Nat
  entry_type : String
  entry_value1 : Option String
  entry_value2 : Option String
  deriving DecidableEq

/-- stone payload::Layout: the in-memory record the store persists, one
filesystem entry with ownership and mode metadata. -/
structure PayloadLayout where
  uid : Nat
  gid : Nat
  mode : Nat
  tag : Nat
  entry : Entry
  deriving DecidableEq

/-- encoding::encode_entry: total mapping of an Entry to its
(tag, value1, value2) relational shape; one fixed tag string per
variant, the Regular hash rendered as its decimal string. -/
def encode_entry : Entry → String × Option String × Option String
  | .Regular hash name => ("regular", some (u128ToString hash), some name)
  | .Symlink source target => ("symlink", some source, some target)
  | .Directory path => ("directory", some path, none)
  | .CharacterDevice path => ("character-device", some path, none)
  | .BlockDevice path => ("block-device", some path, none)
  | .Fifo path => ("fifo", some path, none)
  | .Socket path => ("socket", some path, none)

/-- encoding::decode_entry: partial inverse of encode_entry.  Missing
required columns, a Regular value1 that does not parse as a u128, and
unknown tags all yield none (never an error). -/
def decode_entry (entry_type : String) (entry_value1 entry_value2 : Option String) :
    Option Entry :=
  if entry_type = "regular" then
    entry_value1.bind fun s =>
      (parseU128 s).bind fun hash =>
        entry_value2.map fun name => Entry.Regular hash name
  else if entry_type = "symlink" then
    entry_value1.bind fun source => entry_value2.map fun target => Entry.Symlink source target
  else if entry_type = "directory" then entry_value1.map Entry.Directory
  else if entry_type = "character-device" then entry_value1.map Entry.CharacterDevice
  else if entry_type = "block-device" then entry_value1.map Entry.BlockDevice
  else if entry_type = "fifo" then entry_value1.map Entry.Fifo
  else if entry_type = "socket" then entry_value1.map Entry.Socket
  else none

/-- The seven tag strings decode_entry recognizes. -/
def knownTags : List String :=
  ["regular", "symlink", "directory", "character-device", "block-device", "fifo", "socket"]

/-- Errors of the store, all surfaced to callers as the sqlx variant of
the module's Error enum: a write rejected by a read-only connection, a
syntactically malformed generated statement, a FOREIGN KEY constraint
violation, and a NULL in a column sqlx must decode as TEXT NOT NULL. -/
inductive DbError where
  | readOnly
  | malformedStatement
  | constraintViolation
  | nullDecode
  deriving DecidableEq

/-- State of an open layout database: the rows of the layout table, the
ids present in the packages table that layout.package_id references
(Modelled from the spec: the migration schema under
src/db/layout/migrations is not part of the shown sources; §6 gives
package_id TEXT NOT NULL REFERENCES packages(id), and foreign_keys is
enabled at connect time), and the connection's read-only flag. -/
structure Database where
  table : List Row
  packages : List String
  readOnly : Bool
  deriving DecidableEq

/-- Installation context: supplies the read-only flag passed to the
connection options (Installation::read_only in the source). -/
structure Installation where
  read_only : Bool
  deriving DecidableEq

/-- Database::new followed by connect: opens the store over an existing
on-disk state (file path resolution, creation and migrations are
abstracted to the resulting table and packages contents) and threads the
installation's read-only flag into the connection options. -/
def Database.new (inst : Installation) (table : List Row) (packages : List String) :
    Database :=
  { table := table, packages := packages, readOnly := inst.read_only }

/-- The row batch_add builds for one (package id, layout) pair: the pair's
metadata columns plus the encode_entry image of its entry. -/
def rowOf (id : String) (layout : PayloadLayout) : Row :=
  { package_id := id
    uid := layout.uid
    gid := layout.gid
    mode := layout.mode
    tag := layout.tag
    entry_type := (encode_entry layout.entry).1
    entry_value1 := (encode_entry layout.entry).2.1
    entry_value2 := (encode_entry layout.entry).2.2 }

/-- The decode half shared by all() and query(): each fetched row is
decoded with decode_entry and rows decoding to none are dropped. -/
def allRows (t : List Row) : List (String × PayloadLayout) :=
  t.filterMap fun r =>
    (decode_entry r.entry_type r.entry_value1 r.entry_value2).map fun e =>
      (r.package_id, { uid := r.uid, gid := r.gid, mode := r.mode, tag := r.tag, entry := e })

/-- Database::all: SELECT of every layout row, decoded with the lossy
filter_map policy; the SELECT itself cannot fail on this schema. -/
def Database.all (db : Database) : Except DbError (List (String × PayloadLayout)) :=
  .ok (allRows db.table)

/-- The rows of SELECT ... WHERE package_id = ?, decoded with the same
lossy policy as all(). -/
def queryRows (t : List Row) (package : String) : List PayloadLayout :=
  (t.filter fun r => decide (r.package_id = package)).filterMap fun r =>
    (decode_entry r.entry_type r.entry_value1 r.entry_value2).map fun e =>
      { uid := r.uid, gid := r.gid, mode := r.mode, tag := r.tag, entry := e }

/-- Database::query: all layout rows of one package, decoded; a package
with no rows simply selects nothing. -/
def Database.query (db : Database) (package : String) : Except DbError (List PayloadLayout) :=
  .ok (queryRows db.table package)

/-- Result list of SELECT DISTINCT entry_value1 FROM layout WHERE
entry_type = regular: the value1 column of the regular rows, with
duplicate column values collapsed. -/
def regularValues (t : List Row) : List (Option String) :=
  ((t.filter fun r => decide (r.entry_type = "regular")).map fun r => r.entry_value1).dedup

/-- The set file_hashes builds from the distinct regular value1 strings:
each is parsed as a u128 (unparsable strings dropped) and re-rendered
with the 02x hex format, collected into a set. -/
def hashesOf (t : List Row) : Finset String :=
  (((regularValues t).filterMap id).filterMap fun s =>
    (parseU128 s).map formatHex02).toFinset

/-- Database::file_hashes: the distinct regular-row value1 strings,
parsed and re-rendered in hex.  sqlx decodes each fetched value into a
non-optional String, so a NULL value1 on a regular row fails the whole
fetch; otherwise the call cannot fail. -/
def Database.file_hashes (db : Database) : Except DbError (Finset String) :=
  if none ∈ regularValues db.table then .error .nullDecode
  else .ok (hashesOf db.table)

/-- Database::batch_add: one generated multi-row INSERT statement.  With
no pairs the generated statement has an empty VALUES clause and fails to
prepare; on a read-only connection SQLite rejects the write; a
FOREIGN KEY violation on any row aborts the statement, and the implicit
per-statement transaction rolls back every row of the call; otherwise
all rows are appended. -/
def Database.batch_add (db : Database) (layouts : List (String × PayloadLayout)) :
    Except DbError Unit × Database :=
  if layouts = [] then (.error .malformedStatement, db)
  else if db.readOnly then (.error .readOnly, db)
  else if ∀ pr ∈ layouts, pr.1 ∈ db.packages then
    (.ok (), { db with table := db.table ++ layouts.map fun pr => rowOf pr.1 pr.2 })
  else (.error .constraintViolation, db)

/-- Database::add: batch_add of the singleton list. -/
def Database.add (db : Database) (package : String) (layout : PayloadLayout) :
    Except DbError Unit × Database :=
  db.batch_add [(package, layout)]

/-- Database::batch_remove: one generated DELETE ... WHERE package_id IN
(...) statement.  SQLite accepts an empty IN list (matching no row), so
the statement is well formed for every package collection; on a
read-only connection SQLite rejects the write; otherwise exactly the
rows whose package_id is bound in the IN list are deleted. -/
def Database.batch_remove (db : Database) (packages : List String) :
    Except DbError Unit × Database :=
  if db.readOnly then (.error .readOnly, db)
  else (.ok (), { db with table := db.table.filter fun r => decide (r.package_id ∉ packages) })

/-- Database::remove: batch_remove of the singleton collection. -/
def Database.remove (db : Database) (package : String) : Except DbError Unit × Database :=
  db.batch_remove [package]

theorem ofDigitsLE_digitsLEAux :
    ∀ fuel n : Nat, n ≤ fuel → ofDigitsLE (digitsLEAux 10 fuel n) = n := by
  intro fuel
  induction fuel with
  | zero =>
    intro n hn
    have : n = 0 := Nat.le_zero.mp hn
    subst this
    rfl
  | succ fuel ih =>
    intro n hn
    by_cases hz : n = 0
    · subst hz; simp [digitsLEAux, ofDigitsLE]
    · have hdiv : n / 10 ≤ fuel := by
        have : n / 10 < n := Nat.div_lt_self (Nat.pos_of_ne_zero hz) (by omega)
        omega
      simp only [digitsLEAux, hz, if_false, ofDigitsLE, ih _ hdiv]
      omega

theorem digitsLEAux_lt {b : Nat} (hb : 0 < b) :
    ∀ fuel n d : Nat, d ∈ digitsLEAux b fuel n → d < b := by
  intro fuel
  induction fuel with
  | zero => intro n d hd; simp [digitsLEAux] at hd
  | succ fuel ih =>
    intro n d hd
    by_cases hz : n = 0
    · subst hz; simp [digitsLEAux] at hd
    · simp only [digitsLEAux, hz, if_false, List.mem_cons] at hd
      rcases hd with h | h
      · subst h; exact Nat.mod_lt _ hb
      · exact ih _ _ h

theorem digitsLE_ne_nil {n : Nat} (hn : n ≠ 0) : digitsLE 10 n ≠ [] := by
  unfold digitsLE
  cases n with
  | zero => exact absurd rfl hn
  | succ m => simp [digitsLEAux]

theorem charToDigit_digitChar (d : Nat) (hd : d < 10) :
    charToDigit (digitChar d) = some d := by
  interval_cases d <;> decide

theorem parseDigitsBE_map_digitChar :
    ∀ ds : List Nat, (∀ d ∈ ds, d < 10) → parseDigitsBE (ds.map digitChar) = some ds := by
  intro ds
  induction ds with
  | nil => intro _; rfl
  | cons d ds ih =>
    intro h
    have hd := h d (List.mem_cons_self d ds)
    have hds := ih fun x hx => h x (List.mem_cons_of_mem d hx)
    simp [parseDigitsBE, charToDigit_digitChar d hd, hds]

theorem parseNatChars_natDecChars (n : Nat) : parseNatChars (natDecChars n) = some n := by
  by_cases hz : n = 0
  · subst hz; rfl
  · have hne := digitsLE_ne_nil hz
    have hlt : ∀ d ∈ (digitsLE 10 n).reverse, d < 10 := fun d hd =>
      digitsLEAux_lt (by omega) n n d (List.mem_reverse.mp hd)
    have hparse := parseDigitsBE_map_digitChar _ hlt
    unfold natDecChars
    rw [if_neg hz, ← List.map_reverse]
    unfold parseNatChars
    rw [if_neg (by simpa using fun h => hne (List.reverse_eq_nil_iff.mp h))]
    rw [hparse]
    simp only [Option.map_some', List.reverse_reverse]
    unfold digitsLE
    rw [ofDigitsLE_digitsLEAux n n (Nat.le_refl n)]

theorem parseU128_u128ToString (n : Nat) (hn : n < U128_MOD) :
    parseU128 (u128ToString n) = some n := by
  have hp : parseNatChars (u128ToString n).data = some n := parseNatChars_natDecChars n
  simp [parseU128, hp, hn]

/-- C2: for every Entry value of any of the seven variants (Regular,
Symlink, Directory, CharacterDevice, BlockDevice, Fifo, Socket) built
with a valid payload, decode_entry applied to the (tag, value1, value2)
triple produced by encode_entry returns some of an entry equal to the
original entry. -/
theorem decode_encode_roundtrip (e : Entry) (hv : e.valid) :
    decode_entry (encode_entry e).1 (encode_entry e).2.1 (encode_entry e).2.2 = some e := by
  cases e with
  | Regular hash name =>
    have hp : parseU128 (u128ToString hash) = some hash := parseU128_u128ToString hash hv
    show (some (u128ToString hash)).bind (fun s => (parseU128 s).bind fun h2 =>
      (some name).map fun nm => Entry.Regular h2 nm) = some (Entry.Regular hash name)
    simp [hp]
  | Symlink a b => rfl
  | Directory p => rfl
  | CharacterDevice p => rfl
  | BlockDevice p => rfl
  | Fifo p => rfl
  | Socket p => rfl

/-- Witness for C2: the round trip evaluated at a concrete Regular entry. -/
theorem decode_encode_roundtrip_witness :
    decode_entry (encode_entry (.Regular 42 "/usr/bin/bash")).1
        (encode_entry (.Regular 42 "/usr/bin/bash")).2.1
        (encode_entry (.Regular 42 "/usr/bin/bash")).2.2
      = some (.Regular 42 "/usr/bin/bash") :=
  decode_encode_roundtrip (.Regular 42 "/usr/bin/bash")
    (show (42 : Nat) < U128_MOD by decide)

/-- C8: encode_entry is total (a Lean function on the whole Entry type)
and maps each variant to one fixed tag with the column shape of the
table: Regular to tag regular with value1 the decimal string denoting
the hash (re-parsed, it denotes the same number) and value2 the file
name; Symlink source to value1 and target to value2; the five
path-only variants to their path in value1 with value2 absent. -/
theorem encode_entry_table :
    (∀ (hash : Nat) (name : String),
      encode_entry (.Regular hash name) = ("regular", some (u128ToString hash), some name) ∧
      parseNatChars (u128ToString hash).data = some hash) ∧
    (∀ source target : String,
      encode_entry (.Symlink source target) = ("symlink", some source, some target)) ∧
    (∀ path : String, encode_entry (.Directory path) = ("directory", some path, none)) ∧
    (∀ path : String,
      encode_entry (.CharacterDevice path) = ("character-device", some path, none)) ∧
    (∀ path : String, encode_entry (.BlockDevice path) = ("block-device", some path, none)) ∧
    (∀ path : String, encode_entry (.Fifo path) = ("fifo", some path, none)) ∧
    (∀ path : String, encode_entry (.Socket path) = ("socket", some path, none)) :=
  ⟨fun hash _ => ⟨rfl, parseNatChars_natDecChars hash⟩,
   fun _ _ => rfl, fun _ => rfl, fun _ => rfl, fun _ => rfl, fun _ => rfl, fun _ => rfl⟩

/-- C9: for every package id that has no rows in the layout table,
query succeeds and returns the empty sequence rather than an error. -/
theorem query_absent_package (db : Database) (p : String)
    (habs : ∀ r ∈ db.table, r.package_id ≠ p) : db.query p = .ok [] := by
  unfold Database.query queryRows
  rw [List.filter_eq_nil_iff.mpr fun r hr => by simpa using habs r hr]
  rfl

/-- Witness for C9: a store holding only a bash row answers an empty
sequence for zsh. -/
theorem query_absent_package_witness :
    Database.query ⟨[rowOf "bash" ⟨0, 0, 493, 0, .Directory "/usr"⟩], ["bash"], false⟩ "zsh"
      = .ok [] :=
  query_absent_package ⟨[rowOf "bash" ⟨0, 0, 493, 0, .Directory "/usr"⟩], ["bash"], false⟩
    "zsh" (by decide)

/-- C3: decode_entry yields none rather than an error for an unknown
tag, for a missing required value column (value1 for every known tag,
value2 for regular and symlink), and for a regular value1 that does not
parse as a 128-bit unsigned integer; and all() and query() silently
omit every such row from their (successful) result sequences. -/
theorem decode_tolerance :
    (∀ (t : String) (v1 v2 : Option String), t ∉ knownTags → decode_entry t v1 v2 = none) ∧
    (∀ (t : String) (v2 : Option String), decode_entry t none v2 = none) ∧
    (∀ (s : String) (v2 : Option String),
      parseU128 s = none → decode_entry "regular" (some s) v2 = none) ∧
    (∀ s : String, decode_entry "regular" (some s) none = none) ∧
    (∀ s : String, decode_entry "symlink" (some s) none = none) ∧
    (∀ (pre post : List Row) (r : Row) (pkgs : List String) (ro : Bool),
      decode_entry r.entry_type r.entry_value1 r.entry_value2 = none →
        Database.all ⟨pre ++ r :: post, pkgs, ro⟩ = Database.all ⟨pre ++ post, pkgs, ro⟩ ∧
        ∀ p : String,
          Database.query ⟨pre ++ r :: post, pkgs, ro⟩ p
            = Database.query ⟨pre ++ post, pkgs, ro⟩ p) := by
  refine ⟨?_, ?_, ?_, ?_, ?_, ?_⟩
  · intro t v1 v2 ht
    simp only [knownTags, List.mem_cons, List.not_mem_nil, or_false, not_or] at ht
    obtain ⟨h1, h2, h3, h4, h5, h6, h7⟩ := ht
    simp [decode_entry, h1, h2, h3, h4, h5, h6, h7]
  · intro t v2
    simp [decode_entry]
  · intro s v2 hparse
    show (some s).bind (fun s2 => (parseU128 s2).bind fun hash =>
      v2.map fun name => Entry.Regular hash name) = none
    simp [hparse]
  · intro s
    show (some s).bind (fun s2 => (parseU128 s2).bind fun hash =>
      (none : Option String).map fun name => Entry.Regular hash name) = none
    cases hp : parseU128 s <;> simp [hp]
  · intro s
    rfl
  · intro pre post r pkgs ro hdec
    constructor
    · unfold Database.all allRows
      simp [List.filterMap_append, List.filterMap_cons, hdec]
    · intro p
      unfold Database.query queryRows
      rw [List.filter_append, List.filter_append, List.filter_cons]
      split
      · rw [List.filterMap_append, List.filterMap_append, List.filterMap_cons, hdec]
        simp
      · rfl

/-- Witness for C3: a concrete unknown tag, a missing value1, a
non-numeric regular value1, and the omission of a malformed regular row
from all(). -/
theorem decode_tolerance_witness :
    decode_entry "weird" (some "x") (some "y") = none ∧
    decode_entry "regular" none (some "f") = none ∧
    decode_entry "regular" (some "nope") (some "f") = none ∧
    Database.all ⟨[⟨"p", 0, 0, 0, 0, "regular", none, some "f"⟩], [], false⟩
      = Database.all ⟨[], [], false⟩ :=
  ⟨decode_tolerance.1 "weird" (some "x") (some "y") (by decide),
   decode_tolerance.2.1 "regular" (some "f"),
   decode_tolerance.2.2.1 "nope" (some "f") (by decide),
   (decode_tolerance.2.2.2.2.2 [] [] ⟨"p", 0, 0, 0, 0, "regular", none, some "f"⟩ [] false
     (by decide)).1⟩

/-- C4: batch_add executes its single multi-row INSERT all-or-nothing:
when every pair satisfies the FOREIGN KEY constraint all rows are
appended, and when any pair violates it the call returns an error and
the table holds none of the call's rows (the post-state equals the
pre-state). -/
theorem batch_add_atomicity (db : Database) (layouts : List (String × PayloadLayout))
    (hne : layouts ≠ []) (hro : db.readOnly = false) :
    ((∀ pr ∈ layouts, pr.1 ∈ db.packages) →
      db.batch_add layouts =
        (.ok (), { db with table := db.table ++ layouts.map fun pr => rowOf pr.1 pr.2 })) ∧
    ((∃ pr ∈ layouts, pr.1 ∉ db.packages) →
      db.batch_add layouts = (.error .constraintViolation, db)) := by
  constructor
  · intro hall
    unfold Database.batch_add
    rw [if_neg hne, hro]
    simp only [Bool.false_eq_true, if_false]
    rw [if_pos hall]
  · intro hfail
    unfold Database.batch_add
    rw [if_neg hne, hro]
    simp only [Bool.false_eq_true, if_false]
    rw [if_neg]
    intro hall
    obtain ⟨pr, hmem, hnot⟩ := hfail
    exact hnot (hall pr hmem)

/-- Witness for C4: from an empty store that knows only the bash
package, a two-pair call whose second pair references an unknown
package errors and leaves the table empty. -/
theorem batch_add_atomicity_witness :
    Database.batch_add ⟨[], ["bash"], false⟩
        [("bash", ⟨0, 0, 493, 0, .Directory "/usr"⟩), ("ghost", ⟨0, 0, 493, 0, .Directory "/opt"⟩)]
      = (.error .constraintViolation, ⟨[], ["bash"], false⟩) :=
  (batch_add_atomicity ⟨[], ["bash"], false⟩
      [("bash", ⟨0, 0, 493, 0, .Directory "/usr"⟩), ("ghost", ⟨0, 0, 493, 0, .Directory "/opt"⟩)]
      (by simp) rfl).2
    (by decide)

/-- C6: batch_remove deletes exactly the rows whose package id is in
the given collection: afterwards query is empty for every removed id,
query and membership are unchanged for every other package, all()
excludes every removed row, and a collection matching no rows leaves
the state unchanged while still succeeding. -/
theorem batch_remove_exact (db : Database) (P : List String) (hro : db.readOnly = false) :
    ((db.batch_remove P).1 = .ok ()) ∧
    (∀ p ∈ P, (db.batch_remove P).2.query p = .ok []) ∧
    (∀ p : String, p ∉ P → (db.batch_remove P).2.query p = db.query p) ∧
    (∀ r ∈ (db.batch_remove P).2.table, r.package_id ∉ P ∧ r ∈ db.table) ∧
    (∀ r ∈ db.table, r.package_id ∉ P → r ∈ (db.batch_remove P).2.table) ∧
    (∀ pr ∈ allRows (db.batch_remove P).2.table, pr.1 ∉ P) ∧
    ((∀ r ∈ db.table, r.package_id ∉ P) → (db.batch_remove P).2 = db) := by
  have hbr : db.batch_remove P =
      (.ok (), { db with table := db.table.filter fun r => decide (r.package_id ∉ P) }) := by
    unfold Database.batch_remove
    rw [hro]
    simp
  rw [hbr]
  refine ⟨rfl, ?_, ?_, ?_, ?_, ?_, ?_⟩
  · intro p hp
    unfold Database.query queryRows
    rw [List.filter_filter]
    rw [List.filter_eq_nil_iff.mpr ?_]
    · rfl
    · intro r _
      simp only [Bool.and_eq_true, decide_eq_true_eq, not_and]
      intro hpid hnot
      exact hnot (hpid ▸ hp)
  · intro p hp
    unfold Database.query queryRows
    rw [List.filter_filter]
    have hfe : (db.table.filter fun a => decide (a.package_id = p) && decide (a.package_id ∉ P))
        = db.table.filter fun r => decide (r.package_id = p) :=
      List.filter_congr fun r _ => by by_cases hpid : r.package_id = p <;> simp [hpid, hp]
    rw [hfe]
  · intro r hr
    have := List.mem_filter.mp hr
    exact ⟨by simpa using this.2, this.1⟩
  · intro r hr hnot
    exact List.mem_filter.mpr ⟨hr, by simpa using hnot⟩
  · intro pr hpr
    obtain ⟨r, hr, heq⟩ := List.mem_filterMap.mp hpr
    obtain ⟨e, _, hpe⟩ := Option.map_eq_some'.mp heq
    have hmem := List.mem_filter.mp hr
    have : pr.1 = r.package_id := by rw [← hpe]
    rw [this]
    simpa using hmem.2
  · intro hnone
    have : db.table.filter (fun r => decide (r.package_id ∉ P)) = db.table :=
      List.filter_eq_self.mpr fun r hr => by simpa using hnone r hr
    rw [this]

/-- Witness for C6: removing bash from a two-package store empties the
bash query. -/
theorem batch_remove_exact_witness :
    (Database.batch_remove
        ⟨[rowOf "bash" ⟨0, 0, 493, 0, .Directory "/usr"⟩,
          rowOf "zsh" ⟨0, 0, 493, 0, .Directory "/opt"⟩], ["bash", "zsh"], false⟩
        ["bash"]).2.query "bash" = .ok [] :=
  ((batch_remove_exact
      ⟨[rowOf "bash" ⟨0, 0, 493, 0, .Directory "/usr"⟩,
        rowOf "zsh" ⟨0, 0, 493, 0, .Directory "/opt"⟩], ["bash", "zsh"], false⟩
      ["bash"] rfl).2.1 "bash" (by decide))

/-- C7: a store opened with the installation's read-only flag set (the
flag is threaded into the connection options by Database.new) answers
every write operation with a store-level error and leaves the database
contents unchanged. -/
theorem read_only_rejects_writes (inst : Installation) (table : List Row)
    (pkgs : List String) (hro : inst.read_only = true) :
    ∀ (layouts : List (String × PayloadLayout)) (packages : List String)
      (p : String) (l : PayloadLayout),
      (((Database.new inst table pkgs).batch_add layouts).2 = Database.new inst table pkgs ∧
        ∃ e, ((Database.new inst table pkgs).batch_add layouts).1 = .error e) ∧
      (((Database.new inst table pkgs).batch_remove packages).2 = Database.new inst table pkgs ∧
        ((Database.new inst table pkgs).batch_remove packages).1 = .error .readOnly) ∧
      (((Database.new inst table pkgs).add p l).2 = Database.new inst table pkgs ∧
        ((Database.new inst table pkgs).add p l).1 = .error .readOnly) ∧
      (((Database.new inst table pkgs).remove p).2 = Database.new inst table pkgs ∧
        ((Database.new inst table pkgs).remove p).1 = .error .readOnly) := by
  intro layouts packages p l
  by_cases hl : layouts = [] <;>
    simp [Database.new, Database.add, Database.remove, Database.batch_add,
      Database.batch_remove, hro, hl]

/-- Witness for C7: a concrete read-only store rejects a single add and
keeps its (empty) table. -/
theorem read_only_rejects_writes_witness :
    ((Database.new ⟨true⟩ [] ["bash"]).add "bash" ⟨0, 0, 493, 0, .Directory "/usr"⟩).1
        = .error .readOnly ∧
    ((Database.new ⟨true⟩ [] ["bash"]).add "bash" ⟨0, 0, 493, 0, .Directory "/usr"⟩).2
        = Database.new ⟨true⟩ [] ["bash"] :=
  have h := read_only_rejects_writes ⟨true⟩ [] ["bash"] rfl [] [] "bash"
    ⟨0, 0, 493, 0, .Directory "/usr"⟩
  ⟨h.2.2.1.2, h.2.2.1.1⟩

/-- Counterexample for C10: batch_remove of the empty collection
succeeds as a no-op (SQLite accepts the generated empty IN list)
instead of returning a database error. -/
theorem batch_remove_empty_is_noop :
    (Database.new ⟨false⟩ [rowOf "bash" ⟨0, 0, 493, 0, .Directory "/usr"⟩] ["bash"]).batch_remove []
      = (.ok (), Database.new ⟨false⟩ [rowOf "bash" ⟨0, 0, 493, 0, .Directory "/usr"⟩] ["bash"]) := by
  rfl

/-- C10 as amended: batch_add of the empty list returns a database
error (its generated INSERT has an empty VALUES clause) and leaves the
table unchanged, while batch_remove of the empty collection succeeds as
a no-op, also leaving the table unchanged. -/
theorem empty_batch_calls (db : Database) (hro : db.readOnly = false) :
    db.batch_add [] = (.error .malformedStatement, db) ∧
    db.batch_remove [] = (.ok (), db) := by
  constructor
  · rfl
  · obtain ⟨t, pk, ro⟩ := db
    have hro2 : ro = false := hro
    subst hro2
    unfold Database.batch_remove
    have hfe : t.filter (fun r => decide (r.package_id ∉ ([] : List String))) = t :=
      List.filter_eq_self.mpr fun r _ => by simp
    simp [hfe]

/-- Witness for C10 (amended): both empty-batch behaviours at a concrete
writable store. -/
theorem empty_batch_calls_witness :
    Database.batch_add ⟨[], ["bash"], false⟩ [] = (.error .malformedStatement, ⟨[], ["bash"], false⟩) ∧
    Database.batch_remove ⟨[], ["bash"], false⟩ [] = (.ok (), ⟨[], ["bash"], false⟩) :=
  empty_batch_calls ⟨[], ["bash"], false⟩ rfl

theorem mem_regularValues {t : List Row} {v : Option String} :
    v ∈ regularValues t ↔ ∃ r ∈ t, r.entry_type = "regular" ∧ r.entry_value1 = v := by
  simp only [regularValues, List.mem_dedup, List.mem_map, List.mem_filter, decide_eq_true_eq]
  constructor
  · rintro ⟨r, ⟨hr, hreg⟩, hv⟩
    exact ⟨r, hr, hreg, hv⟩
  · rintro ⟨r, hr, hreg, hv⟩
    exact ⟨r, ⟨hr, hreg⟩, hv⟩

theorem mem_hashesOf {t : List Row} {x : String} :
    x ∈ hashesOf t ↔ ∃ r ∈ t, r.entry_type = "regular" ∧
      ∃ s, r.entry_value1 = some s ∧ ∃ m, parseU128 s = some m ∧ formatHex02 m = x := by
  simp only [hashesOf, List.mem_toFinset, List.mem_filterMap, Option.map_eq_some', id_eq,
    mem_regularValues]
  constructor
  · rintro ⟨s, ⟨o, ⟨r, hr, hreg, hv⟩, rfl⟩, m, hm, hx⟩
    exact ⟨r, hr, hreg, s, hv, m, hm, hx⟩
  · rintro ⟨r, hr, hreg, s, hv, m, hm, hx⟩
    exact ⟨s, ⟨some s, ⟨r, hr, hreg, hv⟩, rfl⟩, m, hm, hx⟩

theorem file_hashes_ok (db : Database)
    (hnf : ∀ r ∈ db.table, r.entry_type = "regular" → r.entry_value1 ≠ none) :
    db.file_hashes = .ok (hashesOf db.table) := by
  unfold Database.file_hashes
  rw [if_neg]
  intro hmem
  obtain ⟨r, hr, hreg, hv⟩ := mem_regularValues.mp hmem
  exact hnf r hr hreg hv

theorem hashesOf_append_regular (t : List Row) (hash : Nat) (hh : hash < U128_MOD)
    (p1 p2 n1 n2 : String) (u1 g1 m1 t1 u2 g2 m2 t2 : Nat) :
    hashesOf (t ++ [rowOf p1 ⟨u1, g1, m1, t1, .Regular hash n1⟩,
                    rowOf p2 ⟨u2, g2, m2, t2, .Regular hash n2⟩])
      = insert (formatHex02 hash) (hashesOf t) := by
  ext x
  simp only [mem_hashesOf, Finset.mem_insert, List.mem_append, List.mem_cons,
    List.not_mem_nil, or_false]
  constructor
  · rintro ⟨r, hr | hr, hreg, s, hs, m, hm, hx⟩
    · exact Or.inr ⟨r, hr, hreg, s, hs, m, hm, hx⟩
    · have hval : r.entry_value1 = some (u128ToString hash) := by
        rcases hr with h | h <;> subst h <;> rfl
      rw [hval] at hs
      have hseq : u128ToString hash = s := by injection hs
      subst hseq
      rw [parseU128_u128ToString hash hh] at hm
      have hmeq : hash = m := by injection hm
      subst hmeq
      exact Or.inl hx.symm
  · rintro (hx | ⟨r, hr, hreg, s, hs, m, hm, hx⟩)
    · exact ⟨rowOf p1 ⟨u1, g1, m1, t1, .Regular hash n1⟩, Or.inr (Or.inl rfl), rfl,
        u128ToString hash, rfl, hash, parseU128_u128ToString hash hh, hx.symm⟩
    · exact ⟨r, Or.inl hr, hreg, s, hs, m, hm, hx⟩

theorem regularValues_append_nonregular (t : List Row) (d : Row)
    (hd : d.entry_type ≠ "regular") :
    regularValues (t ++ [d]) = regularValues t := by
  unfold regularValues
  rw [List.filter_append, List.filter_cons]
  simp [hd]

/-- C5: file_hashes draws only from rows whose entry_type is regular:
appending two Regular rows with the same hash (in any two packages)
adds exactly one element, the textual form of that hash, to the
returned set; appending a Directory row never changes the returned set;
and on a store holding just the two Regular rows the returned set is
the singleton of that hash's textual form. -/
theorem file_hashes_regular_dedup (db : Database)
    (hnf : ∀ r ∈ db.table, r.entry_type = "regular" → r.entry_value1 ≠ none)
    (hash : Nat) (hh : hash < U128_MOD)
    (p1 p2 n1 n2 : String) (u1 g1 m1 t1 u2 g2 m2 t2 : Nat)
    (pd dpath : String) (ud gd md td : Nat) :
    (Database.file_hashes { db with table := db.table ++
        [rowOf p1 ⟨u1, g1, m1, t1, .Regular hash n1⟩,
         rowOf p2 ⟨u2, g2, m2, t2, .Regular hash n2⟩] }
      = .ok (insert (formatHex02 hash) (hashesOf db.table))) ∧
    (Database.file_hashes { db with table :=
        db.table ++ [rowOf pd ⟨ud, gd, md, td, .Directory dpath⟩] }
      = Database.file_hashes db) ∧
    (hashesOf [rowOf p1 ⟨u1, g1, m1, t1, .Regular hash n1⟩,
               rowOf p2 ⟨u2, g2, m2, t2, .Regular hash n2⟩]
      = {formatHex02 hash}) := by
  refine ⟨?_, ?_, ?_⟩
  · have hok := file_hashes_ok { db with table := db.table ++
        [rowOf p1 ⟨u1, g1, m1, t1, .Regular hash n1⟩,
         rowOf p2 ⟨u2, g2, m2, t2, .Regular hash n2⟩] } ?_
    · rw [hok, hashesOf_append_regular db.table hash hh]
    · intro r hr hreg
      rcases List.mem_append.mp hr with h | h
      · exact hnf r h hreg
      · rcases List.mem_cons.mp h with h2 | h2
        · subst h2; simp [rowOf, encode_entry]
        · rcases List.mem_singleton.mp h2 with h3
          subst h3; simp [rowOf, encode_entry]
  · have hrv := regularValues_append_nonregular db.table
      (rowOf pd ⟨ud, gd, md, td, .Directory dpath⟩) (by simp [rowOf, encode_entry])
    unfold Database.file_hashes hashesOf
    rw [hrv]
  · have h0 := hashesOf_append_regular [] hash hh p1 p2 n1 n2 u1 g1 m1 t1 u2 g2 m2 t2
    simpa using h0

/-- Witness for C5: two concrete Regular rows with hash 42 in two
packages yield the singleton set of the textual form of 42. -/
theorem file_hashes_regular_dedup_witness :
    hashesOf [rowOf "pkgA" ⟨0, 0, 420, 0, .Regular 42 "/a"⟩,
              rowOf "pkgB" ⟨0, 0, 420, 0, .Regular 42 "/b"⟩] = {formatHex02 42} :=
  (file_hashes_regular_dedup ⟨[], [], false⟩ (by simp) 42 (by decide)
    "pkgA" "pkgB" "/a" "/b" 0 0 420 0 0 0 420 0 "d" "/x" 0 0 0 0).2.2

/-- C1 is contradicted by the code: file_hashes renders each parsed
hash with a hex format whose zero-fill minimum width is 2, not the 32
hex digits of the full u128 width, so small hashes produce short
strings.  At the failing input (a Regular row with hash 42 next to one
with hash 2 ^ 124) the returned set holds the 2-character string 2a and
a 32-character string: the returned textual forms are not fixed-width
and not all of length 32. -/
theorem file_hashes_not_fixed_width :
    ((Database.new ⟨false⟩ [] ["bash"]).batch_add
        [("bash", ⟨0, 0, 493, 0, .Regular 42 "/usr/bin/bash"⟩),
         ("bash", ⟨0, 0, 493, 0, .Regular (2 ^ 124) "/usr/bin/big"⟩)]).2.file_hashes
      = .ok {"2a", "10000000000000000000000000000000"} ∧
    ("2a" : String).length = 2 ∧
    ("10000000000000000000000000000000" : String).length = 32 := by
  refine ⟨?_, rfl, rfl⟩
  decide

end Moss
